import Mathlib

/-!
Verification development for a trading-strategy backtesting system.

The code under verification consists of a strategy consensus mechanism
(StrategyManager in trading-strategies.ts), technical indicators (RSI and
friends), a bar-by-bar backtesting engine (BacktestingEngine in
trading-execution.ts), and a parameter optimizer.  JavaScript numbers are
modelled as rationals; Math.sqrt, whose exact value never matters for the
properties below, is threaded through as an explicit function parameter.
Strategy evaluation (which involves a remote AI service and a random
arbitrage detector in the source) is abstracted as a function from the
rolling data window to an optional consensus signal.
-/

/-- Trading actions, the values of the action field of a signal. -/
inductive TradeAction where
  | buy
  | sell
  | hold
deriving DecidableEq, Repr

/-- Model of the StrategySignal record of trading-strategies.ts.  The symbol
and timestamp fields (a string copied through and a wall-clock reading that no
consumer of the consensus reads) are omitted. -/
structure StrategySignal where
  action : TradeAction
  strength : ℚ
  confidence : ℚ
  entryPrice : ℚ
  stopLoss : Option ℚ
  takeProfit : Option ℚ
  reason : String
deriving DecidableEq, Repr

/-- Number of signals in the list voting for a given action; the source counts
these by incrementing a per-action counter over the signal list. -/
def votesFor (signals : List StrategySignal) (a : TradeAction) : ℕ :=
  (signals.filter (fun s => s.action = a)).length

/-- Confidences of the signals voting for a given action; the source pushes
each confidence onto a per-action list while tallying the votes. -/
def confList (signals : List StrategySignal) (a : TradeAction) : List ℚ :=
  (signals.filter (fun s => s.action = a)).map (fun s => s.confidence)

/-- Sum of the confidences of the signals voting for a given action. -/
def confSum (signals : List StrategySignal) (a : TradeAction) : ℚ :=
  (confList signals a).sum

/-- Average confidence of the signals voting for a given action, zero when
none voted for it, exactly the guarded mean the source computes. -/
def avgConfidenceFor (signals : List StrategySignal) (a : TradeAction) : ℚ :=
  if 0 < (confList signals a).length then
    (confList signals a).sum / ((confList signals a).length : ℚ)
  else 0

/-- Model of calculateStopLoss: two ATRs below the entry for a buy, above for
a sell. -/
def calculateStopLoss (entryPrice : ℚ) (action : TradeAction) (atr : ℚ) : ℚ :=
  if action = TradeAction.buy then entryPrice - atr * 2 else entryPrice + atr * 2

/-- Model of calculateTakeProfit: three ATRs above the entry for a buy, below
for a sell. -/
def calculateTakeProfit (entryPrice : ℚ) (action : TradeAction) (atr : ℚ) : ℚ :=
  if action = TradeAction.buy then entryPrice + atr * 3 else entryPrice - atr * 3

/-- Winner of the vote tally, reproducing the JavaScript reduce over
Object.entries in iteration order buy, sell, hold: the accumulator is kept
only when its vote count is strictly greater, so ties go to the later entry. -/
def winningAction (vb vs vh : ℕ) : TradeAction :=
  let w1 := if vs < vb then TradeAction.buy else TradeAction.sell
  let v1 := if vs < vb then vb else vs
  if vh < v1 then w1 else TradeAction.hold

/-- Action winning the tally of a signal list under the reduce tie-break. -/
def consensusWinner (signals : List StrategySignal) : TradeAction :=
  winningAction (votesFor signals TradeAction.buy)
    (votesFor signals TradeAction.sell) (votesFor signals TradeAction.hold)

/-- Model of StrategyManager.getConsensusSignal, applied to the list of
signals produced by the active strategies.  The latest price and the ATR of
the window are passed in as the values the source reads off the market data.
A signal is returned only when the winning action holds a strict majority of
the votes. -/
def getConsensusSignal (signals : List StrategySignal) (latestPrice atr : ℚ) :
    Option StrategySignal :=
  if signals.isEmpty then none
  else
    let w := consensusWinner signals
    if ((signals.length : ℚ) / 2 < (votesFor signals w : ℚ)) then
      some
        { action := w
          strength := ((votesFor signals w : ℚ) / (signals.length : ℚ)) * 100
          confidence := avgConfidenceFor signals w
          entryPrice := latestPrice
          stopLoss := if w ≠ TradeAction.hold then some (calculateStopLoss latestPrice w atr) else none
          takeProfit := if w ≠ TradeAction.hold then some (calculateTakeProfit latestPrice w atr) else none
          reason := "Consensus signal" }
    else none

/-- Consecutive price changes of a close series, entry i being
closes[i+1] - closes[i]; the source builds this list with a for loop from
index 1. -/
def changesOf (closes : List ℚ) : List ℚ :=
  List.zipWith (fun a b => b - a) closes closes.tail

/-- Model of TechnicalAnalysisStrategy.calculateRSI over the close series.
Gains and losses are summed over the whole change list but divided by the
configured period, exactly as the source does. -/
def calculateRSI (closes : List ℚ) (period : ℕ) : ℚ :=
  if closes.length < period + 1 then 50
  else
    let changes := changesOf closes
    let gains := changes.filter (fun c => 0 < c)
    let losses := (changes.filter (fun c => c < 0)).map (fun c => |c|)
    let avgGain := if 0 < gains.length then gains.sum / (period : ℚ) else 0
    let avgLoss := if 0 < losses.length then losses.sum / (period : ℚ) else 0
    if avgLoss = 0 then 100
    else 100 - 100 / (1 + avgGain / avgLoss)

/-- Textbook variant of the RSI average that divides the summed gains and
losses by the number of gains and losses actually observed.  This definition
follows the specification wording only, to contrast with calculateRSI. -/
def rsiByCount (closes : List ℚ) (period : ℕ) : ℚ :=
  if closes.length < period + 1 then 50
  else
    let changes := changesOf closes
    let gains := changes.filter (fun c => 0 < c)
    let losses := (changes.filter (fun c => c < 0)).map (fun c => |c|)
    let avgGain := if 0 < gains.length then gains.sum / (gains.length : ℚ) else 0
    let avgLoss := if 0 < losses.length then losses.sum / (losses.length : ℚ) else 0
    if avgLoss = 0 then 100
    else 100 - 100 / (1 + avgGain / avgLoss)

/-- JavaScript numeric values as they appear in the metric records: either a
finite number or the literal Infinity written by the source. -/
inductive JsVal where
  | num : ℚ → JsVal
  | inf : JsVal
deriving DecidableEq, Repr

/-- Model of the per-strategy BacktestResult record of trading-strategies.ts. -/
structure StratBacktestResult where
  totalTrades : ℕ
  winningTrades : ℕ
  losingTrades : ℕ
  winRate : ℚ
  totalReturn : ℚ
  maxDrawdown : ℚ
  sharpeRatio : ℚ
  profitFactor : JsVal
  averageWin : ℚ
  averageLoss : ℚ
deriving DecidableEq, Repr

/-- Model of ArbitrageStrategy.backtest, which returns a fixed literal record
without reading its historicalData argument. -/
def arbitrageBacktest (historicalData : List ℚ) : StratBacktestResult :=
  { totalTrades := 50
    winningTrades := 50
    losingTrades := 0
    winRate := 100
    totalReturn := 15
    maxDrawdown := 0.1
    sharpeRatio := 25
    profitFactor := JsVal.inf
    averageWin := 300
    averageLoss := 0 }

/-- Model of the HistoricalData record of trading-execution.ts; timestamps are
epoch milliseconds. -/
structure Bar where
  timestamp : ℕ
  openPrice : ℚ
  high : ℚ
  low : ℚ
  close : ℚ
  volume : ℕ
deriving DecidableEq, Repr, Inhabited

/-- Model of BacktestConfig; the date strings are modelled by the epoch values
they parse to, and the free-form parameters object by an ordered association
list. -/
structure BacktestConfig where
  symbol : String
  strategy : String
  startDate : ℕ
  endDate : ℕ
  initialCapital : ℚ
  parameters : List (String × ℚ)
deriving DecidableEq, Repr

/-- Model of the BacktestTrade record.  The status field is omitted: the
engine always writes the literal completed. -/
structure BacktestTrade where
  id : String
  symbol : String
  ttype : TradeAction
  quantity : ℚ
  entryPrice : ℚ
  exitPrice : ℚ
  entryTime : ℕ
  exitTime : ℕ
  profitLoss : ℚ
  profitLossPercent : ℚ
  fees : ℚ
  strategy : String
  reason : String
deriving DecidableEq, Repr

/-- The data of a trade without its id, used to state that two runs agree on
everything except the wall-clock-derived trade ids. -/
structure TradeData where
  symbol : String
  ttype : TradeAction
  quantity : ℚ
  entryPrice : ℚ
  exitPrice : ℚ
  entryTime : ℕ
  exitTime : ℕ
  profitLoss : ℚ
  profitLossPercent : ℚ
  fees : ℚ
  strategy : String
  reason : String
deriving DecidableEq, Repr

/-- Forget the id of a trade. -/
def stripId (t : BacktestTrade) : TradeData :=
  { symbol := t.symbol
    ttype := t.ttype
    quantity := t.quantity
    entryPrice := t.entryPrice
    exitPrice := t.exitPrice
    entryTime := t.entryTime
    exitTime := t.exitTime
    profitLoss := t.profitLoss
    profitLossPercent := t.profitLossPercent
    fees := t.fees
    strategy := t.strategy
    reason := t.reason }

/-- Model of one equity-curve record. -/
structure EquityPoint where
  timestamp : ℕ
  equity : ℚ
  drawdown : ℚ
deriving DecidableEq, Repr, Inhabited

/-- Model of the summary block of a BacktestResult. -/
structure SummaryStats where
  totalTrades : ℕ
  winningTrades : ℕ
  losingTrades : ℕ
  winRate : ℚ
  totalReturn : ℚ
  totalReturnPercent : ℚ
  maxDrawdown : ℚ
  maxDrawdownPercent : ℚ
  sharpeRatio : Option ℚ
  profitFactor : JsVal
  averageWin : ℚ
  averageLoss : ℚ
  largestWin : ℚ
  largestLoss : ℚ
  averageHoldTime : ℚ
deriving DecidableEq, Repr

/-- Model of the metrics block of a BacktestResult. -/
structure RiskMetrics where
  calmarRatio : ℚ
  sortinoRatio : ℚ
  winLossRatio : ℚ
  profitFactor : JsVal
  recoveryFactor : ℚ
  riskAdjustedReturn : ℚ
deriving DecidableEq, Repr

/-- Model of a full BacktestResult. -/
structure FullBacktestResult where
  summary : SummaryStats
  trades : List BacktestTrade
  equity_curve : List EquityPoint
  metrics : RiskMetrics
  config : BacktestConfig
deriving DecidableEq, Repr

/-- Errors thrown by runBacktest: no historical series for the symbol, or
fewer than 50 bars in the requested date range. -/
inductive BacktestError where
  | symbolNotFound
  | insufficientData
deriving DecidableEq, Repr

/-- Maximum of a nonempty list as JavaScript Math.max over spread arguments
computes it; the callers guard against the empty list. -/
def jsMaxList (l : List ℚ) : ℚ :=
  l.foldl max (l.headD 0)

/-- Model of BacktestingEngine.calculatePositionSize: risk one percent of
capital against an estimated two-percent move of the entry price. -/
def calculatePositionSize (capital : ℚ) (signal : StrategySignal) : ℚ :=
  let riskAmount := capital * 0.01
  let estimatedPriceMove := signal.entryPrice * 0.02
  riskAmount / estimatedPriceMove

/-- JavaScript division with the non-finite results (NaN for 0 divided by 0,
signed Infinity otherwise) collapsed to none. -/
def jsdiv (a b : ℚ) : Option ℚ :=
  if b = 0 then none else some (a / b)

/-- The sharpe-ratio block of calculateSummary with the divisions by the trade
count made explicit through jsdiv: with an empty trade list the unguarded
average of returns is 0 divided by 0, which JavaScript evaluates to NaN, and
the NaN then propagates through the variance and the ratio.  The none value
marks that non-finite outcome. -/
def summarySharpe (msqrt : ℚ → ℚ) (returns : List ℚ) : Option ℚ :=
  match jsdiv returns.sum (returns.length : ℚ) with
  | none => none
  | some avgReturn =>
    match jsdiv ((returns.map (fun r => (r - avgReturn) ^ 2)).sum) (returns.length : ℚ) with
    | none => none
    | some variance =>
      let stdDev := msqrt variance
      if stdDev ≠ 0 then some (avgReturn / stdDev) else some 0

/-- Model of BacktestingEngine.calculateSummary, factored through TradeData
because the source never reads the id field of a trade.  The sharpe block is
summarySharpe, which makes the unguarded divisions by the trade count
explicit, so a zero-trade run carries the NaN marker none; the square root of
the return variance is taken by the msqrt parameter standing for Math.sqrt. -/
def summaryOfData (msqrt : ℚ → ℚ) (trades : List TradeData)
    (initialCapital finalCapital maxDrawdown : ℚ) : SummaryStats :=
  let winningTrades := trades.filter (fun t => 0 < t.profitLoss)
  let losingTrades := trades.filter (fun t => t.profitLoss < 0)
  let totalReturn := finalCapital - initialCapital
  let totalReturnPercent := totalReturn / initialCapital * 100
  let averageWin := if 0 < winningTrades.length then
    (winningTrades.map (fun t => t.profitLoss)).sum / (winningTrades.length : ℚ) else 0
  let averageLoss := if 0 < losingTrades.length then
    (losingTrades.map (fun t => |t.profitLoss|)).sum / (losingTrades.length : ℚ) else 0
  let largestWin := if 0 < winningTrades.length then
    jsMaxList (winningTrades.map (fun t => t.profitLoss)) else 0
  let largestLoss := if 0 < losingTrades.length then
    jsMaxList (losingTrades.map (fun t => |t.profitLoss|)) else 0
  let holdTimes := trades.map (fun t => ((t.exitTime : ℚ) - (t.entryTime : ℚ)) / 86400000)
  let averageHoldTime := if 0 < holdTimes.length then
    holdTimes.sum / (holdTimes.length : ℚ) else 0
  let returns := trades.map (fun t => t.profitLossPercent)
  let sharpeRatio := summarySharpe msqrt returns
  let grossProfit := (winningTrades.map (fun t => t.profitLoss)).sum
  let grossLoss := |(losingTrades.map (fun t => t.profitLoss)).sum|
  let profitFactor := if grossLoss ≠ 0 then JsVal.num (grossProfit / grossLoss) else JsVal.inf
  { totalTrades := trades.length
    winningTrades := winningTrades.length
    losingTrades := losingTrades.length
    winRate := if 0 < trades.length then (winningTrades.length : ℚ) / (trades.length : ℚ) * 100 else 0
    totalReturn := totalReturn
    totalReturnPercent := totalReturnPercent
    maxDrawdown := maxDrawdown
    maxDrawdownPercent := maxDrawdown
    sharpeRatio := sharpeRatio
    profitFactor := profitFactor
    averageWin := averageWin
    averageLoss := averageLoss
    largestWin := largestWin
    largestLoss := largestLoss
    averageHoldTime := averageHoldTime }

/-- Wrapper with the source signature of calculateSummary. -/
def calculateSummary (msqrt : ℚ → ℚ) (trades : List BacktestTrade)
    (initialCapital finalCapital maxDrawdown : ℚ) : SummaryStats :=
  summaryOfData msqrt (trades.map stripId) initialCapital finalCapital maxDrawdown

/-- Per-trade return percentages that are negative, as collected by
calculateAdvancedMetrics. -/
def negativeReturns (trades : List TradeData) : List ℚ :=
  (trades.map (fun t => t.profitLossPercent)).filter (fun r => r < 0)

/-- Mean of the squared negative return percentages, the downside variance of
calculateAdvancedMetrics; zero when there are no negative returns. -/
def downsideVariance (trades : List TradeData) : ℚ :=
  if 0 < (negativeReturns trades).length then
    ((negativeReturns trades).map (fun r => r ^ 2)).sum / ((negativeReturns trades).length : ℚ)
  else 0

/-- Model of BacktestingEngine.calculateAdvancedMetrics, factored through
TradeData like the summary. -/
def metricsOfData (msqrt : ℚ → ℚ) (trades : List TradeData)
    (summary : SummaryStats) : RiskMetrics :=
  let calmarRatio := if summary.maxDrawdown ≠ 0 then
    |summary.totalReturnPercent| / summary.maxDrawdown else 0
  let downsideDeviation := msqrt (downsideVariance trades)
  let sortinoRatio := if downsideDeviation ≠ 0 then
    summary.totalReturnPercent / downsideDeviation else 0
  let winLossRatio := if summary.averageLoss ≠ 0 then
    summary.averageWin / summary.averageLoss else 0
  let recoveryFactor := if summary.maxDrawdown ≠ 0 then
    summary.totalReturnPercent / summary.maxDrawdown else 0
  let riskAdjustedReturn := if summary.maxDrawdown ≠ 0 then
    summary.totalReturnPercent / summary.maxDrawdown else 0
  { calmarRatio := calmarRatio
    sortinoRatio := sortinoRatio
    winLossRatio := winLossRatio
    profitFactor := summary.profitFactor
    recoveryFactor := recoveryFactor
    riskAdjustedReturn := riskAdjustedReturn }

/-- Wrapper with the source signature of calculateAdvancedMetrics. -/
def calculateAdvancedMetrics (msqrt : ℚ → ℚ) (trades : List BacktestTrade)
    (summary : SummaryStats) : RiskMetrics :=
  metricsOfData msqrt (trades.map stripId) summary

/-- Mutable state of the simulation loop of runBacktest. -/
structure BTState where
  capital : ℚ
  maxCapital : ℚ
  maxDrawdown : ℚ
  currentDrawdown : ℚ
  trades : List BacktestTrade
  equityCurve : List EquityPoint
deriving Repr

/-- Initial state of a run. -/
def initState (cfg : BacktestConfig) : BTState :=
  { capital := cfg.initialCapital
    maxCapital := cfg.initialCapital
    maxDrawdown := 0
    currentDrawdown := 0
    trades := []
    equityCurve := [] }

/-- Trade id as the source builds it from the symbol, the bar index and
Date.now(); the wall-clock reading is passed in as now. -/
def mkTradeId (symbol : String) (i now : ℕ) : String :=
  symbol ++ "-" ++ toString i ++ "-" ++ toString now

/-- Loop body of runBacktest for bar index i: ask the consensus for a signal
on the window of bars up to i, execute a one-bar round-trip trade when the
signal is a non-hold action, and append one equity point either way. -/
def stepBar (consensus : List Bar → Option StrategySignal) (cfg : BacktestConfig)
    (filtered : List Bar) (now : ℕ) (st : BTState) (i : ℕ) : BTState :=
  let currentData := filtered.take (i + 1)
  let currentBar := filtered.getD i default
  let nextBar := filtered.getD (i + 1) default
  match consensus currentData with
  | some sig =>
    if sig.action ≠ TradeAction.hold then
      let positionSize := calculatePositionSize st.capital sig
      let entryPrice := currentBar.close
      let exitPrice := nextBar.close
      let profit := (exitPrice - entryPrice) * positionSize *
        (if sig.action = TradeAction.buy then 1 else -1)
      let fees := |entryPrice * positionSize * 0.001|
      let netProfit := profit - fees
      let trade : BacktestTrade :=
        { id := mkTradeId cfg.symbol i now
          symbol := cfg.symbol
          ttype := sig.action
          quantity := positionSize
          entryPrice := entryPrice
          exitPrice := exitPrice
          entryTime := currentBar.timestamp
          exitTime := nextBar.timestamp
          profitLoss := netProfit
          profitLossPercent := netProfit / (entryPrice * positionSize) * 100
          fees := fees
          strategy := cfg.strategy
          reason := sig.reason }
      let capital := st.capital + netProfit
      let maxCapital := max st.maxCapital capital
      let currentDrawdown := (maxCapital - capital) / maxCapital * 100
      let maxDrawdown := max st.maxDrawdown currentDrawdown
      { capital := capital
        maxCapital := maxCapital
        maxDrawdown := maxDrawdown
        currentDrawdown := currentDrawdown
        trades := st.trades ++ [trade]
        equityCurve := st.equityCurve ++
          [{ timestamp := currentBar.timestamp, equity := capital, drawdown := currentDrawdown }] }
    else
      { st with equityCurve := st.equityCurve ++
          [{ timestamp := currentBar.timestamp, equity := st.capital, drawdown := st.currentDrawdown }] }
  | none =>
    { st with equityCurve := st.equityCurve ++
        [{ timestamp := currentBar.timestamp, equity := st.capital, drawdown := st.currentDrawdown }] }

/-- Indices iterated by the simulation loop: i runs from 20 while
i < length - 1, so the last index is length - 2. -/
def simIndices (n : ℕ) : List ℕ :=
  List.range' 20 (n - 21)

/-- Bars of the series that fall inside the configured date range. -/
def barFilter (cfg : BacktestConfig) (data : List Bar) : List Bar :=
  data.filter (fun b => cfg.startDate ≤ b.timestamp ∧ b.timestamp ≤ cfg.endDate)

/-- The simulation loop of runBacktest as a fold of stepBar over the iterated
indices. -/
def simulate (consensus : List Bar → Option StrategySignal) (cfg : BacktestConfig)
    (filtered : List Bar) (now : ℕ) : BTState :=
  (simIndices filtered.length).foldl (stepBar consensus cfg filtered now) (initState cfg)

/-- Model of BacktestingEngine.runBacktest.  The historical series for the
configured symbol is passed as an Option, the strategy-manager consensus as a
function of the rolling window, and the wall clock as now. -/
def runBacktest (msqrt : ℚ → ℚ) (consensus : List Bar → Option StrategySignal)
    (cfg : BacktestConfig) (hist : Option (List Bar)) (now : ℕ) :
    Except BacktestError FullBacktestResult :=
  match hist with
  | none => Except.error BacktestError.symbolNotFound
  | some data =>
    let filtered := barFilter cfg data
    if filtered.length < 50 then Except.error BacktestError.insufficientData
    else
      let st := simulate consensus cfg filtered now
      let summary := calculateSummary msqrt st.trades cfg.initialCapital st.capital st.maxDrawdown
      let metrics := calculateAdvancedMetrics msqrt st.trades summary
      Except.ok
        { summary := summary
          trades := st.trades
          equity_curve := st.equityCurve
          metrics := metrics
          config := cfg }


/-- Model of BacktestingEngine.calculateFitness; the Infinity profit factor of
a run with no losing trades clamps to 1 exactly as min then max do in
JavaScript, while a NaN sharpe ratio (zero-trade run) passes through the
clamp as NaN and makes the whole weighted sum NaN, marked none. -/
def calculateFitness (result : FullBacktestResult) : Option ℚ :=
  let s := result.summary
  match s.sharpeRatio with
  | none => none
  | some sh =>
    let normalizedReturn := min (max (s.totalReturnPercent / 100) 0) 1
    let normalizedWinRate := s.winRate / 100
    let normalizedSharpe := min (max (sh / 3) 0) 1
    let normalizedDrawdown := max (1 - s.maxDrawdown / 50) 0
    let normalizedProfitFactor :=
      match s.profitFactor with
      | JsVal.num q => min (max (q / 3) 0) 1
      | JsVal.inf => 1
    some (normalizedReturn * 0.3 + normalizedWinRate * 0.25 + normalizedSharpe * 0.2 +
      normalizedDrawdown * 0.15 + normalizedProfitFactor * 0.1)

/-- Model of BacktestingEngine.generateParameterCombinations: the recursion on
the first key builds the full Cartesian product of the candidate-value lists,
the first key varying slowest. -/
def generateParameterCombinations : List (String × List ℚ) → List (List (String × ℚ))
  | [] => [[]]
  | (k, vs) :: rest =>
    vs.flatMap (fun v => (generateParameterCombinations rest).map (fun c => (k, v) :: c))

/-- One entry of the optimizer output. -/
structure OptimizationResult where
  parameters : List (String × ℚ)
  result : FullBacktestResult
  fitness : Option ℚ
deriving Repr

/-- Decision of the sort comparator b.fitness - a.fitness under the
ECMAScript rule that a NaN comparator value is treated as +0: x may stay
before y when the comparator is not positive, which holds for a descending
numeric pair and for every pair involving a NaN fitness. -/
def fitnessKeepB (x y : OptimizationResult) : Bool :=
  match x.fitness, y.fitness with
  | some a, some b => decide (b ≤ a)
  | _, _ => true

/-- Propositional form of the comparator decision used by the sort. -/
def sortKeeps (x y : OptimizationResult) : Prop :=
  fitnessKeepB x y = true

instance : DecidableRel sortKeeps :=
  fun x y => inferInstanceAs (Decidable (fitnessKeepB x y = true))

/-- Total order on fitness values with the NaN marker collapsed to 0, used
only as a bridge on lists without NaN entries, where it coincides with the
comparator decision. -/
def fitTot (x y : OptimizationResult) : Prop :=
  y.fitness.getD 0 ≤ x.fitness.getD 0

instance : DecidableRel fitTot :=
  fun x y => inferInstanceAs (Decidable (y.fitness.getD 0 ≤ x.fitness.getD 0))

instance : IsTotal OptimizationResult fitTot :=
  ⟨fun a b => le_total (b.fitness.getD 0) (a.fitness.getD 0)⟩

instance : IsTrans OptimizationResult fitTot :=
  ⟨fun _ _ _ hab hbc => le_trans hbc hab⟩

/-- The greater-or-equal of the claim on fitness values: false whenever
either side is the NaN marker, as every JavaScript comparison with NaN is. -/
def jsFitGe : Option ℚ → Option ℚ → Prop
  | some a, some b => b ≤ a
  | _, _ => False

/-- Model of BacktestingEngine.optimizeStrategy: run the backtest once per
parameter combination, skip the failing combinations, and sort the surviving
results with the stable insertion sort driven by the comparator decision
sortKeeps.  On results whose fitness values are all numeric this is the
descending fitness order the ECMAScript sort guarantees; with a NaN fitness
the engine comparator is inconsistent and ECMAScript leaves the order
implementation-defined, which the model fixes to the stable insertion
order. -/
def optimizeStrategy (msqrt : ℚ → ℚ) (consensus : List Bar → Option StrategySignal)
    (cfg : BacktestConfig) (hist : Option (List Bar)) (now : ℕ)
    (parameterRanges : List (String × List ℚ)) : List OptimizationResult :=
  let combos := generateParameterCombinations parameterRanges
  let results := combos.filterMap (fun params =>
    match runBacktest msqrt consensus { cfg with parameters := params } hist now with
    | Except.ok result => some
        { parameters := params
          result := result
          fitness := calculateFitness result }
    | Except.error _ => none)
  results.insertionSort sortKeeps

/-- Whether a parameter combination would make the backtest succeed. -/
def comboSucceeds (msqrt : ℚ → ℚ) (consensus : List Bar → Option StrategySignal)
    (cfg : BacktestConfig) (hist : Option (List Bar)) (now : ℕ)
    (params : List (String × ℚ)) : Bool :=
  match runBacktest msqrt consensus { cfg with parameters := params } hist now with
  | Except.ok _ => true
  | Except.error _ => false

/-- Equity curve of a run result, empty on error. -/
def equityCurveOf (e : Except BacktestError FullBacktestResult) : List EquityPoint :=
  match e with
  | Except.ok r => r.equity_curve
  | Except.error _ => []

/-- Trade list of a run result, empty on error. -/
def tradesOf (e : Except BacktestError FullBacktestResult) : List BacktestTrade :=
  match e with
  | Except.ok r => r.trades
  | Except.error _ => []

/-- Summary of a run result. -/
def summaryOf (e : Except BacktestError FullBacktestResult) : Option SummaryStats :=
  match e with
  | Except.ok r => some r.summary
  | Except.error _ => none

/-- Metrics of a run result. -/
def metricsOf (e : Except BacktestError FullBacktestResult) : Option RiskMetrics :=
  match e with
  | Except.ok r => some r.metrics
  | Except.error _ => none

/-- Config echoed in a run result. -/
def configOf (e : Except BacktestError FullBacktestResult) : Option BacktestConfig :=
  match e with
  | Except.ok r => some r.config
  | Except.error _ => none

/-- Maximum drawdown reported by a run, zero on error. -/
def maxDrawdownOf (e : Except BacktestError FullBacktestResult) : ℚ :=
  match e with
  | Except.ok r => r.summary.maxDrawdown
  | Except.error _ => 0

/-- Length of the confidence list for an action equals its vote count. -/
lemma confList_length (signals : List StrategySignal) (a : TradeAction) :
    (confList signals a).length = votesFor signals a := by
  simp [confList, votesFor]

/-- Helper for the consensus claim: whenever getConsensusSignal returns a
signal, its action carries a strict vote majority and its confidence is the
mean confidence of the signals that voted for that action. -/
lemma consensus_some_majority (signals : List StrategySignal) (price atr : ℚ)
    (c : StrategySignal) (h : getConsensusSignal signals price atr = some c) :
    signals.length < 2 * votesFor signals c.action ∧
      c.confidence = confSum signals c.action / (votesFor signals c.action : ℚ) := by
  unfold getConsensusSignal at h
  by_cases he : signals.isEmpty
  · rw [if_pos he] at h
    exact absurd h (by simp)
  · rw [if_neg he] at h
    by_cases hc : ((signals.length : ℚ) / 2 < (votesFor signals (consensusWinner signals) : ℚ))
    · rw [if_pos hc] at h
      have hcw : c.action = consensusWinner signals := by
        cases h
        rfl
      have hlt : signals.length < 2 * votesFor signals c.action := by
        rw [hcw]
        have h2 : (signals.length : ℚ) < (votesFor signals (consensusWinner signals) : ℚ) * 2 :=
          (div_lt_iff two_pos).mp hc
        have := h2
        rw [mul_comm] at this
        exact_mod_cast this
      refine ⟨hlt, ?_⟩
      have hpos : 0 < votesFor signals c.action := by
        by_contra hz
        push_neg at hz
        interval_cases hv : votesFor signals c.action
        omega
      have hconf : c.confidence = avgConfidenceFor signals (consensusWinner signals) := by
        cases h
        rfl
      rw [hconf, avgConfidenceFor, if_pos (by rw [confList_length, ← hcw]; exact hpos),
        confList_length, ← hcw]
      rfl
    · rw [if_neg hc] at h
      exact absurd h (by simp)

/-- Helper for the consensus claim: when no action reaches a strict majority
the consensus is none. -/
lemma consensus_no_majority (signals : List StrategySignal) (price atr : ℚ)
    (h : ∀ a, 2 * votesFor signals a ≤ signals.length) :
    getConsensusSignal signals price atr = none := by
  unfold getConsensusSignal
  by_cases he : signals.isEmpty
  · rw [if_pos he]
  · rw [if_neg he]
    have hle : (votesFor signals (consensusWinner signals) : ℚ) ≤ (signals.length : ℚ) / 2 := by
      rw [le_div_iff two_pos]
      have := h (consensusWinner signals)
      have hq : (2 * votesFor signals (consensusWinner signals) : ℚ) ≤ (signals.length : ℚ) := by
        exact_mod_cast this
      linarith
    rw [if_neg (not_lt.mpr hle)]

/-- C1: getConsensusSignal on a non-empty signal list returns a signal only
when the winning action has a strict vote majority, with confidence equal to
the mean confidence of exactly the signals voting for that action; without a
strict majority it returns none, and in particular one buy, one sell and one
hold among three signals yield none. -/
theorem consensus_strict_majority_mean_confidence :
    (∀ (signals : List StrategySignal) (price atr : ℚ) (c : StrategySignal),
        signals ≠ [] → getConsensusSignal signals price atr = some c →
        signals.length < 2 * votesFor signals c.action ∧
          c.confidence = confSum signals c.action / (votesFor signals c.action : ℚ)) ∧
    (∀ (signals : List StrategySignal) (price atr : ℚ), signals ≠ [] →
        (∀ a, 2 * votesFor signals a ≤ signals.length) →
        getConsensusSignal signals price atr = none) ∧
    (∀ (s1 s2 s3 : StrategySignal) (price atr : ℚ),
        s1.action = TradeAction.buy → s2.action = TradeAction.sell →
        s3.action = TradeAction.hold →
        getConsensusSignal [s1, s2, s3] price atr = none) := by
  refine ⟨fun signals price atr c _ h => consensus_some_majority signals price atr c h,
    fun signals price atr _ h => consensus_no_majority signals price atr h,
    fun s1 s2 s3 price atr h1 h2 h3 => ?_⟩
  apply consensus_no_majority
  intro a
  cases a <;> simp [votesFor, List.filter, h1, h2, h3]

/-- Concrete signals used by the consensus witness. -/
def sigBuy1 : StrategySignal :=
  { action := TradeAction.buy, strength := 50, confidence := 80, entryPrice := 1,
    stopLoss := none, takeProfit := none, reason := "b" }

/-- Concrete sell signal used by the consensus witness. -/
def sigSell1 : StrategySignal :=
  { action := TradeAction.sell, strength := 50, confidence := 70, entryPrice := 1,
    stopLoss := none, takeProfit := none, reason := "s" }

/-- Concrete hold signal used by the consensus witness. -/
def sigHold1 : StrategySignal :=
  { action := TradeAction.hold, strength := 0, confidence := 50, entryPrice := 1,
    stopLoss := none, takeProfit := none, reason := "h" }

/-- Witness for C1 at a concrete one-buy one-sell one-hold signal list. -/
theorem consensus_strict_majority_witness :
    getConsensusSignal [sigBuy1, sigSell1, sigHold1] 1 0 = none :=
  consensus_strict_majority_mean_confidence.2.2 sigBuy1 sigSell1 sigHold1 1 0 rfl rfl rfl

/-- C7: calculateRSI returns 50 on fewer than period plus one samples,
returns 100 whenever the series has no negative change, returns exactly 100
on the monotonically increasing twenty-value series at period 14, and divides
the summed gains and losses by the configured period rather than by the
number of gains or losses observed, as the contrast with the count-dividing
variant on a concrete series shows. -/
theorem rsi_boundary_and_period_division :
    (∀ (closes : List ℚ) (period : ℕ), closes.length < period + 1 →
        calculateRSI closes period = 50) ∧
    (∀ (closes : List ℚ) (period : ℕ), period + 1 ≤ closes.length →
        (∀ c ∈ changesOf closes, 0 ≤ c) → calculateRSI closes period = 100) ∧
    calculateRSI [1, 2, 3, 4, 5, 6, 7, 8, 9, 10, 11, 12, 13, 14, 15, 16, 17, 18, 19, 20] 14 = 100 ∧
    (calculateRSI [1, 2, 1, 3] 3 = 75 ∧ rsiByCount [1, 2, 1, 3] 3 = 60) := by
  refine ⟨?_, ?_, by norm_num [calculateRSI, changesOf],
    by norm_num [calculateRSI, changesOf], by norm_num [rsiByCount, changesOf]⟩
  · intro closes period h
    unfold calculateRSI
    rw [if_pos h]
  · intro closes period h1 h2
    have hl : (changesOf closes).filter (fun c => decide (c < 0)) = [] := by
      rw [List.filter_eq_nil_iff]
      intro c hc
      simpa using not_lt.mpr (h2 c hc)
    unfold calculateRSI
    rw [if_neg (not_lt.mpr h1)]
    simp [hl]

/-- Witness for C7 at concrete short and monotone series. -/
theorem rsi_boundary_witness :
    calculateRSI [1, 2] 5 = 50 ∧ calculateRSI [1, 2, 3] 2 = 100 :=
  ⟨rsi_boundary_and_period_division.1 [1, 2] 5 (by decide),
   rsi_boundary_and_period_division.2.1 [1, 2, 3] 2 (by decide) (by norm_num [changesOf])⟩

/-- C9: ArbitrageStrategy.backtest is a constant function returning the fixed
record with 50 winning trades out of 50, win rate 100, total return 15, max
drawdown 0.1, sharpe ratio 25, infinite profit factor, average win 300 and
average loss 0, never reading its input series. -/
theorem arbitrage_backtest_constant :
    (∀ data : List ℚ, arbitrageBacktest data = arbitrageBacktest []) ∧
    arbitrageBacktest [] =
      { totalTrades := 50, winningTrades := 50, losingTrades := 0, winRate := 100,
        totalReturn := 15, maxDrawdown := 0.1, sharpeRatio := 25,
        profitFactor := JsVal.inf, averageWin := 300, averageLoss := 0 } :=
  ⟨fun _ => rfl, rfl⟩

/-- Exactly one equity point is appended by each loop step, whether or not a
trade occurred. -/
lemma stepBar_equity (consensus : List Bar → Option StrategySignal)
    (cfg : BacktestConfig) (filtered : List Bar) (now : ℕ) (st : BTState) (i : ℕ) :
    ∃ p, (stepBar consensus cfg filtered now st i).equityCurve = st.equityCurve ++ [p] := by
  unfold stepBar
  dsimp only
  cases consensus (filtered.take (i + 1)) with
  | none => exact ⟨_, rfl⟩
  | some sig =>
    dsimp only
    by_cases ha : sig.action = TradeAction.hold
    · rw [if_neg (by simp [ha])]
      exact ⟨_, rfl⟩
    · rw [if_pos ha]
      exact ⟨_, rfl⟩

/-- Length form of stepBar_equity. -/
lemma stepBar_equity_length (consensus : List Bar → Option StrategySignal)
    (cfg : BacktestConfig) (filtered : List Bar) (now : ℕ) (st : BTState) (i : ℕ) :
    (stepBar consensus cfg filtered now st i).equityCurve.length = st.equityCurve.length + 1 := by
  obtain ⟨p, hp⟩ := stepBar_equity consensus cfg filtered now st i
  rw [hp]
  simp

/-- The fold of the loop grows the equity curve by one point per iterated
index. -/
lemma foldl_equity_length (consensus : List Bar → Option StrategySignal)
    (cfg : BacktestConfig) (filtered : List Bar) (now : ℕ) :
    ∀ (is : List ℕ) (st : BTState),
      ((is.foldl (stepBar consensus cfg filtered now) st).equityCurve).length
        = st.equityCurve.length + is.length := by
  intro is
  induction is with
  | nil => intro st; simp
  | cons i is ih =>
    intro st
    rw [List.foldl_cons, ih, stepBar_equity_length, List.length_cons]
    omega

/-- C2 (confirmed): runBacktest on a symbol with a historical series fails
with the insufficient-data error exactly when fewer than 50 bars fall inside
the date range, succeeds with a result otherwise, and in particular fails on
a concrete date range containing only 10 bars. -/
theorem runBacktest_insufficient_data_iff :
    (∀ (msqrt : ℚ → ℚ) (consensus : List Bar → Option StrategySignal)
        (cfg : BacktestConfig) (data : List Bar) (now : ℕ),
       runBacktest msqrt consensus cfg (some data) now
           = Except.error BacktestError.insufficientData
         ↔ (barFilter cfg data).length < 50) ∧
    (∀ (msqrt : ℚ → ℚ) (consensus : List Bar → Option StrategySignal)
        (cfg : BacktestConfig) (data : List Bar) (now : ℕ),
       50 ≤ (barFilter cfg data).length →
       ∃ r, runBacktest msqrt consensus cfg (some data) now = Except.ok r) := by
  constructor
  · intro msqrt consensus cfg data now
    unfold runBacktest
    dsimp only
    by_cases h : (barFilter cfg data).length < 50
    · rw [if_pos h]
      simp [h]
    · rw [if_neg h]
      simp [h]
  · intro msqrt consensus cfg data now h
    unfold runBacktest
    dsimp only
    rw [if_neg (by omega)]
    exact ⟨_, rfl⟩

/-- Always-none consensus used by concrete runs with no trades. -/
def consNone : List Bar → Option StrategySignal := fun _ => none

/-- Concrete square-root stand-in satisfying msqrt 0 = 0 and mapping positive
rationals to positive rationals. -/
def mq0 : ℚ → ℚ := fun q => max q 0

/-- Fifty flat bars with timestamps 0 to 49. -/
def bars50 : List Bar :=
  (List.range 50).map (fun i =>
    { timestamp := i, openPrice := 1, high := 1, low := 1, close := 1, volume := 0 })

/-- Ten flat bars with timestamps 0 to 9. -/
def bars10 : List Bar :=
  (List.range 10).map (fun i =>
    { timestamp := i, openPrice := 1, high := 1, low := 1, close := 1, volume := 0 })

/-- Concrete configuration whose date range covers timestamps 0 to 49. -/
def cfg50 : BacktestConfig :=
  { symbol := "X", strategy := "consensus", startDate := 0, endDate := 49,
    initialCapital := 1000, parameters := [] }

/-- Witness for C2: a concrete range with 50 bars succeeds, and a concrete
range with 10 bars raises the insufficient-data error. -/
theorem runBacktest_insufficient_data_witness :
    (∃ r, runBacktest mq0 consNone cfg50 (some bars50) 0 = Except.ok r) ∧
    runBacktest mq0 consNone cfg50 (some bars10) 0
      = Except.error BacktestError.insufficientData :=
  ⟨runBacktest_insufficient_data_iff.2 mq0 consNone cfg50 bars50 0 (by decide),
   (runBacktest_insufficient_data_iff.1 mq0 consNone cfg50 bars10 0).mpr (by decide)⟩

/-- C3 counterexample: on a concrete run over 50 filtered bars the equity
curve has 29 points, not the 30 that the number of simulated bars minus the
20-bar warm-up window would give; the loop never iterates the final bar,
which only provides the exit price of the last iteration. -/
theorem equity_curve_length_counterexample :
    (equityCurveOf (runBacktest mq0 consNone cfg50 (some bars50) 0)).length = 29 ∧
    (barFilter cfg50 bars50).length - 20 = 30 := by
  constructor
  · decide
  · decide

/-- C3 (amended): in every successful run exactly one equity point is
appended per iterated bar whether or not a trade occurred, and the curve
length equals the number of filtered bars minus the warm-up window minus one,
the final bar being used only as the exit of the last iteration. -/
theorem equity_curve_length_eq (msqrt : ℚ → ℚ)
    (consensus : List Bar → Option StrategySignal) (cfg : BacktestConfig)
    (data : List Bar) (now : ℕ) (h : 50 ≤ (barFilter cfg data).length) :
    (equityCurveOf (runBacktest msqrt consensus cfg (some data) now)).length
      = (barFilter cfg data).length - 21 := by
  unfold runBacktest
  dsimp only
  rw [if_neg (by omega)]
  show ((simulate consensus cfg (barFilter cfg data) now).equityCurve).length = _
  unfold simulate
  rw [foldl_equity_length]
  simp [initState, simIndices]

/-- Witness for C3 at the concrete 50-bar run. -/
theorem equity_curve_length_witness :
    (equityCurveOf (runBacktest mq0 consNone cfg50 (some bars50) 0)).length
      = (barFilter cfg50 bars50).length - 21 :=
  equity_curve_length_eq mq0 consNone cfg50 bars50 0 (by decide)

/-- The equity curve of the fold extends the starting equity curve. -/
lemma foldl_equity_extends (consensus : List Bar → Option StrategySignal)
    (cfg : BacktestConfig) (filtered : List Bar) (now : ℕ) :
    ∀ (is : List ℕ) (st : BTState),
      ∃ r, ((is.foldl (stepBar consensus cfg filtered now) st).equityCurve)
        = st.equityCurve ++ r := by
  intro is
  induction is with
  | nil => intro st; exact ⟨[], by simp⟩
  | cons i is ih =>
    intro st
    obtain ⟨r2, hr2⟩ := ih (stepBar consensus cfg filtered now st i)
    obtain ⟨p, hp⟩ := stepBar_equity consensus cfg filtered now st i
    refine ⟨[p] ++ r2, ?_⟩
    rw [List.foldl_cons, hr2, hp, List.append_assoc]

/-- Invariant maintained by the simulation loop: the running peak capital is
positive and dominates the capital, the current drawdown is nonnegative and
below the running maximum drawdown, a nonnegative capital keeps the current
drawdown at most 100, and every recorded point satisfies the corresponding
bounds. -/
def DrawdownInv (st : BTState) : Prop :=
  0 < st.maxCapital ∧ st.capital ≤ st.maxCapital ∧
  0 ≤ st.currentDrawdown ∧ st.currentDrawdown ≤ st.maxDrawdown ∧
  (0 ≤ st.capital → st.currentDrawdown ≤ 100) ∧
  (∀ p ∈ st.equityCurve, 0 ≤ p.drawdown ∧ p.drawdown ≤ st.maxDrawdown ∧
    (0 ≤ p.equity → p.drawdown ≤ 100)) ∧
  ((∀ p ∈ st.equityCurve, 0 ≤ p.equity) → st.maxDrawdown ≤ 100)

/-- The branch of the loop that only appends an equity point preserves the
invariant. -/
lemma holdBranch_inv (st : BTState) (pt : ℕ) (h : DrawdownInv st) :
    DrawdownInv { st with equityCurve := st.equityCurve ++
      [{ timestamp := pt, equity := st.capital, drawdown := st.currentDrawdown }] } := by
  obtain ⟨h1, h2, h3, h4, h5, h6, h7⟩ := h
  refine ⟨h1, h2, h3, h4, h5, ?_, ?_⟩
  · intro p hp
    rcases List.mem_append.mp hp with hp | hp
    · exact h6 p hp
    · simp only [List.mem_singleton] at hp
      subst hp
      exact ⟨h3, h4, h5⟩
  · intro hall
    apply h7
    intro p hp
    exact hall p (List.mem_append.mpr (Or.inl hp))

/-- The trade branch of the loop preserves the invariant, for any net profit
of the executed trade. -/
lemma tradeBranch_inv (st : BTState) (np : ℚ) (pt : ℕ) (tr : BacktestTrade)
    (h : DrawdownInv st) :
    DrawdownInv
      { capital := st.capital + np
        maxCapital := max st.maxCapital (st.capital + np)
        maxDrawdown := max st.maxDrawdown
          ((max st.maxCapital (st.capital + np) - (st.capital + np))
            / max st.maxCapital (st.capital + np) * 100)
        currentDrawdown :=
          (max st.maxCapital (st.capital + np) - (st.capital + np))
            / max st.maxCapital (st.capital + np) * 100
        trades := st.trades ++ [tr]
        equityCurve := st.equityCurve ++
          [{ timestamp := pt, equity := st.capital + np,
             drawdown := (max st.maxCapital (st.capital + np) - (st.capital + np))
               / max st.maxCapital (st.capital + np) * 100 }] } := by
  obtain ⟨h1, h2, h3, h4, h5, h6, h7⟩ := h
  set c := st.capital + np with hc
  set m := max st.maxCapital c with hm
  set dd := (m - c) / m * 100 with hdd
  have hmpos : 0 < m := lt_of_lt_of_le h1 (le_max_left _ _)
  have hcm : c ≤ m := le_max_right _ _
  have hdd0 : 0 ≤ dd := by
    apply mul_nonneg _ (by norm_num)
    exact div_nonneg (sub_nonneg.mpr hcm) hmpos.le
  have hdd100 : 0 ≤ c → dd ≤ 100 := by
    intro hcpos
    have hq : (m - c) / m ≤ 1 := div_le_one_of_le (by linarith) hmpos.le
    calc dd = (m - c) / m * 100 := rfl
      _ ≤ 1 * 100 := mul_le_mul_of_nonneg_right hq (by norm_num)
      _ = 100 := by norm_num
  refine ⟨hmpos, hcm, hdd0, le_max_right _ _, hdd100, ?_, ?_⟩
  · intro p hp
    rcases List.mem_append.mp hp with hp | hp
    · obtain ⟨a, b, cc⟩ := h6 p hp
      exact ⟨a, b.trans (le_max_left _ _), cc⟩
    · simp only [List.mem_singleton] at hp
      subst hp
      exact ⟨hdd0, le_max_right _ _, hdd100⟩
  · intro hall
    have hold : ∀ p ∈ st.equityCurve, 0 ≤ p.equity := by
      intro p hp
      exact hall p (List.mem_append.mpr (Or.inl hp))
    have hnew : (0 : ℚ) ≤ c :=
      hall _ (List.mem_append.mpr (Or.inr (List.mem_singleton.mpr rfl)))
    exact max_le (h7 hold) (hdd100 hnew)

/-- One loop step preserves the drawdown invariant. -/
lemma stepBar_drawdownInv (consensus : List Bar → Option StrategySignal)
    (cfg : BacktestConfig) (filtered : List Bar) (now : ℕ) (st : BTState) (i : ℕ)
    (h : DrawdownInv st) : DrawdownInv (stepBar consensus cfg filtered now st i) := by
  unfold stepBar
  dsimp only
  cases consensus (filtered.take (i + 1)) with
  | none => exact holdBranch_inv st _ h
  | some sig =>
    dsimp only
    by_cases ha : sig.action = TradeAction.hold
    · rw [if_neg (by simp [ha])]
      exact holdBranch_inv st _ h
    · rw [if_pos ha]
      exact tradeBranch_inv st _ _ _ h

/-- The whole loop preserves the drawdown invariant. -/
lemma foldl_drawdownInv (consensus : List Bar → Option StrategySignal)
    (cfg : BacktestConfig) (filtered : List Bar) (now : ℕ) :
    ∀ (is : List ℕ) (st : BTState), DrawdownInv st →
      DrawdownInv (is.foldl (stepBar consensus cfg filtered now) st) := by
  intro is
  induction is with
  | nil => intro st h; exact h
  | cons i is ih =>
    intro st h
    exact ih _ (stepBar_drawdownInv consensus cfg filtered now st i h)

/-- The initial state satisfies the drawdown invariant when the initial
capital is positive. -/
lemma initState_drawdownInv (cfg : BacktestConfig) (h : 0 < cfg.initialCapital) :
    DrawdownInv (initState cfg) := by
  unfold initState
  exact ⟨h, le_refl _, le_refl _, le_refl _, fun _ => by norm_num, by simp,
    fun _ => by norm_num⟩

/-- C4 (amended): in every successful run with positive initial capital,
every recorded equity point has a nonnegative drawdown bounded by the
reported maximum drawdown, which is itself nonnegative; the 100-percent upper
bounds hold at every point whose recorded equity is nonnegative, and for the
maximum drawdown whenever all recorded equities are nonnegative.  Without
that nonnegativity a drawdown can exceed 100, as the counterexample shows. -/
theorem drawdown_bounds (msqrt : ℚ → ℚ)
    (consensus : List Bar → Option StrategySignal) (cfg : BacktestConfig)
    (data : List Bar) (now : ℕ) (hcap : 0 < cfg.initialCapital)
    (hlen : 50 ≤ (barFilter cfg data).length) :
    (∀ p ∈ equityCurveOf (runBacktest msqrt consensus cfg (some data) now),
       0 ≤ p.drawdown ∧
       p.drawdown ≤ maxDrawdownOf (runBacktest msqrt consensus cfg (some data) now) ∧
       (0 ≤ p.equity → p.drawdown ≤ 100)) ∧
    0 ≤ maxDrawdownOf (runBacktest msqrt consensus cfg (some data) now) ∧
    ((∀ p ∈ equityCurveOf (runBacktest msqrt consensus cfg (some data) now), 0 ≤ p.equity) →
       maxDrawdownOf (runBacktest msqrt consensus cfg (some data) now) ≤ 100) := by
  have hinv := foldl_drawdownInv consensus cfg (barFilter cfg data) now
    (simIndices (barFilter cfg data).length) (initState cfg) (initState_drawdownInv cfg hcap)
  unfold runBacktest
  dsimp only
  rw [if_neg (by omega)]
  dsimp only [equityCurveOf, maxDrawdownOf, calculateSummary, summaryOfData]
  obtain ⟨h1, h2, h3, h4, h5, h6, h7⟩ := hinv
  exact ⟨h6, h3.trans h4, h7⟩

/-- Sell signal used by the concrete counterexample runs. -/
def sigSellX : StrategySignal :=
  { action := TradeAction.sell, strength := 100, confidence := 50, entryPrice := 1,
    stopLoss := none, takeProfit := none, reason := "r" }

/-- Consensus that sells exactly once, on the window of 21 bars, and holds
otherwise. -/
def consSellOnce : List Bar → Option StrategySignal := fun w =>
  if w.length = 21 then some sigSellX else none

/-- Fifty bars whose close jumps from 1 to 10 at index 21, an adverse move
for a sell trade entered at index 20. -/
def barsJump : List Bar :=
  (List.range 50).map (fun i =>
    { timestamp := i, openPrice := 1, high := 1, low := 1,
      close := if i = 21 then 10 else 1, volume := 0 })

/-- C4 counterexample: on a concrete run whose single sell trade loses more
than the whole capital, the first recorded equity point carries a drawdown of
450.05 percent, so the recorded drawdowns are not bounded by 100. -/
theorem drawdown_bounds_counterexample :
    100 < ((equityCurveOf
      (runBacktest mq0 consSellOnce cfg50 (some barsJump) 0)).headD default).drawdown := by
  have hfil : barFilter cfg50 barsJump = barsJump := by decide
  unfold runBacktest
  dsimp only
  rw [if_neg (by decide)]
  dsimp only [equityCurveOf]
  rw [hfil]
  unfold simulate
  have hidx : simIndices barsJump.length = 20 :: List.range' 21 28 := by decide
  rw [hidx, List.foldl_cons]
  obtain ⟨r, hr⟩ := foldl_equity_extends consSellOnce cfg50 barsJump 0
    (List.range' 21 28) (stepBar consSellOnce cfg50 barsJump 0 (initState cfg50) 20)
  rw [hr]
  have hcons : consSellOnce (barsJump.take (20 + 1)) = some sigSellX := by decide
  have hb20 : barsJump.getD 20 default =
      { timestamp := 20, openPrice := 1, high := 1, low := 1, close := 1, volume := 0 } := by
    decide
  have hb21 : barsJump.getD (20 + 1) default =
      { timestamp := 21, openPrice := 1, high := 1, low := 1, close := 10, volume := 0 } := by
    decide
  unfold stepBar
  dsimp only
  rw [hcons]
  dsimp only
  rw [if_pos (by decide), hb20, hb21]
  dsimp only [initState, calculatePositionSize, sigSellX, cfg50]
  rw [List.nil_append, List.cons_append, List.headD_cons]
  dsimp only
  have habs : |(1 : ℚ) * (1000 * 0.01 / (1 * 0.02)) * 0.001| = 0.5 := by
    rw [abs_of_nonneg] <;> norm_num
  rw [habs]
  have hite : (if TradeAction.sell = TradeAction.buy then (1 : ℚ) else -1) = -1 := by decide
  rw [hite]
  have hmax : max (1000 : ℚ)
      (1000 + ((10 - 1) * (1000 * 0.01 / (1 * 0.02)) * (-1) - 0.5)) = 1000 := by
    rw [max_eq_left]
    norm_num
  rw [hmax]
  norm_num

/-- Witness for C4 at a concrete trade-free run with positive capital. -/
theorem drawdown_bounds_witness :
    0 ≤ maxDrawdownOf (runBacktest mq0 consNone cfg50 (some bars50) 0) :=
  (drawdown_bounds mq0 consNone cfg50 bars50 0 (by norm_num [cfg50]) (by decide)).2.1

/-- C10: for every successful run that records no trades, the win rate is
guarded to 0, while the sharpe-ratio block of calculateSummary divides the
summed returns by the zero trade count without a guard, so the JavaScript
computation is 0 divided by 0 and yields NaN, marked none by summarySharpe. -/
theorem summary_sharpe_nan_on_no_trades :
    ∀ (msqrt : ℚ → ℚ) (consensus : List Bar → Option StrategySignal)
      (cfg : BacktestConfig) (data : List Bar) (now : ℕ),
      50 ≤ (barFilter cfg data).length →
      tradesOf (runBacktest msqrt consensus cfg (some data) now) = [] →
      (summaryOf (runBacktest msqrt consensus cfg (some data) now)).map
          (fun s => s.winRate) = some 0 ∧
      summarySharpe msqrt
        ((tradesOf (runBacktest msqrt consensus cfg (some data) now)).map
          (fun t => t.profitLossPercent)) = none := by
  intro msqrt consensus cfg data now hlen h0
  unfold runBacktest at h0 ⊢
  dsimp only at h0 ⊢
  rw [if_neg (by omega)] at h0 ⊢
  dsimp only [tradesOf] at h0 ⊢
  dsimp only [summaryOf]
  rw [h0]
  constructor
  · simp [calculateSummary, summaryOfData]
  · simp [summarySharpe, jsdiv]

/-- Witness for C10 at the concrete trade-free run. -/
theorem summary_sharpe_nan_witness :
    (summaryOf (runBacktest mq0 consNone cfg50 (some bars50) 0)).map
        (fun s => s.winRate) = some 0 ∧
    summarySharpe mq0
      ((tradesOf (runBacktest mq0 consNone cfg50 (some bars50) 0)).map
        (fun t => t.profitLossPercent)) = none :=
  summary_sharpe_nan_on_no_trades mq0 consNone cfg50 bars50 0 (by decide) (by decide)

/-- Sum of a constant map is the length times the constant. -/
lemma sum_map_const_nat {α : Type} (l : List α) (n : ℕ) :
    (l.map (fun _ => n)).sum = l.length * n := by
  induction l with
  | nil => simp
  | cons a l ih => simp [ih, Nat.succ_mul, Nat.add_comm]

/-- The combination list has as many elements as the product of the sizes of
the candidate-value lists. -/
lemma gen_length : ∀ ranges : List (String × List ℚ),
    (generateParameterCombinations ranges).length
      = (ranges.map (fun p => p.2.length)).prod := by
  intro ranges
  induction ranges with
  | nil => rfl
  | cons kv rest ih =>
    obtain ⟨k, vs⟩ := kv
    show (vs.flatMap fun v =>
      (generateParameterCombinations rest).map (fun c => (k, v) :: c)).length = _
    rw [List.length_flatMap]
    simp only [Function.comp_def, List.length_map]
    rw [sum_map_const_nat, ih]
    rfl

/-- The combination list is duplicate-free when every candidate-value list
is. -/
lemma gen_nodup : ∀ ranges : List (String × List ℚ),
    (∀ p ∈ ranges, p.2.Nodup) → (generateParameterCombinations ranges).Nodup := by
  intro ranges
  induction ranges with
  | nil =>
    intro _
    simp [generateParameterCombinations]
  | cons kv rest ih =>
    obtain ⟨k, vs⟩ := kv
    intro h
    have hvs : vs.Nodup := h (k, vs) (List.mem_cons_self _ _)
    have hrest : (generateParameterCombinations rest).Nodup :=
      ih (fun p hp => h p (List.mem_cons_of_mem _ hp))
    show (vs.flatMap fun v =>
      (generateParameterCombinations rest).map (fun c => (k, v) :: c)).Nodup
    rw [List.nodup_flatMap]
    constructor
    · intro v _
      exact hrest.map (fun c1 c2 hc => by simpa using hc)
    · refine List.Pairwise.imp ?_ hvs
      intro a b hab x hxa hxb
      simp only [List.mem_map] at hxa hxb
      obtain ⟨c1, _, hc1⟩ := hxa
      obtain ⟨c2, _, hc2⟩ := hxb
      rw [← hc2] at hc1
      simp only [List.cons.injEq, Prod.mk.injEq] at hc1
      exact hab hc1.1.2

/-- Failing combinations are omitted: the optimizer returns exactly one entry
per combination whose run succeeds. -/
lemma optimize_length (msqrt : ℚ → ℚ) (consensus : List Bar → Option StrategySignal)
    (cfg : BacktestConfig) (hist : Option (List Bar)) (now : ℕ)
    (ranges : List (String × List ℚ)) :
    (optimizeStrategy msqrt consensus cfg hist now ranges).length
      = ((generateParameterCombinations ranges).filter
          (comboSucceeds msqrt consensus cfg hist now)).length := by
  unfold optimizeStrategy
  rw [List.length_insertionSort]
  induction generateParameterCombinations ranges with
  | nil => rfl
  | cons p ps ih =>
    rw [List.filterMap_cons, List.filter_cons]
    cases hrb : runBacktest msqrt consensus { cfg with parameters := p } hist now with
    | ok r =>
      have hcs : comboSucceeds msqrt consensus cfg hist now p = true := by
        unfold comboSucceeds
        rw [hrb]
      rw [hcs]
      simp only [if_true, List.length_cons, ih]
    | error e =>
      have hcs : comboSucceeds msqrt consensus cfg hist now p = false := by
        unfold comboSucceeds
        rw [hrb]
      rw [hcs]
      simp only [Bool.false_eq_true, if_false, ih]

/-- Inserting an element is unchanged when the two orders agree between the
element and the list members. -/
lemma orderedInsert_congr {α : Type} (r1 r2 : α → α → Prop) [DecidableRel r1]
    [DecidableRel r2] (a : α) :
    ∀ l : List α, (∀ b ∈ l, (r1 a b ↔ r2 a b)) →
      l.orderedInsert r1 a = l.orderedInsert r2 a := by
  intro l
  induction l with
  | nil => intro _; rfl
  | cons b l ih =>
    intro h
    unfold List.orderedInsert
    by_cases hr : r1 a b
    · rw [if_pos hr, if_pos ((h b (List.mem_cons_self _ _)).mp hr)]
    · rw [if_neg hr, if_neg (fun hc => hr ((h b (List.mem_cons_self _ _)).mpr hc)),
        ih (fun c hc => h c (List.mem_cons_of_mem _ hc))]

/-- The insertion sort is unchanged when the two orders agree on the list
members. -/
lemma insertionSort_congr {α : Type} (r1 r2 : α → α → Prop) [DecidableRel r1]
    [DecidableRel r2] :
    ∀ l : List α, (∀ x ∈ l, ∀ y ∈ l, (r1 x y ↔ r2 x y)) →
      l.insertionSort r1 = l.insertionSort r2 := by
  intro l
  induction l with
  | nil => intro _; rfl
  | cons a l ih =>
    intro h
    show (l.insertionSort r1).orderedInsert r1 a = (l.insertionSort r2).orderedInsert r2 a
    rw [ih (fun x hx y hy => h x (List.mem_cons_of_mem _ hx) y (List.mem_cons_of_mem _ hy))]
    apply orderedInsert_congr
    intro b hb
    have hbl : b ∈ l := (List.perm_insertionSort r2 l).subset hb
    exact h a (List.mem_cons_self _ _) b (List.mem_cons_of_mem _ hbl)

/-- The comparator-driven insertion sort of a list whose fitness values are
all numeric is sorted by fitness descending in the NaN-aware order of the
claim. -/
lemma insertionSort_sorted_of_finite (results : List OptimizationResult)
    (h : ∀ r ∈ results.insertionSort sortKeeps, r.fitness.isSome = true) :
    List.Sorted (fun x y => jsFitGe x.fitness y.fitness)
      (results.insertionSort sortKeeps) := by
  have hmem : ∀ r ∈ results, r.fitness.isSome = true := by
    intro r hr
    exact h r ((List.perm_insertionSort sortKeeps results).mem_iff.mpr hr)
  have hcongr : ∀ x ∈ results, ∀ y ∈ results, (sortKeeps x y ↔ fitTot x y) := by
    intro x hx y hy
    obtain ⟨a, ha⟩ := Option.isSome_iff_exists.mp (hmem x hx)
    obtain ⟨b, hb⟩ := Option.isSome_iff_exists.mp (hmem y hy)
    simp [sortKeeps, fitnessKeepB, fitTot, ha, hb]
  rw [insertionSort_congr sortKeeps fitTot results hcongr]
  have hs : List.Sorted fitTot (results.insertionSort fitTot) :=
    List.sorted_insertionSort fitTot results
  refine List.Pairwise.imp_of_mem ?_ hs
  intro x y hx hy hxy
  have hxr : x ∈ results := (List.perm_insertionSort fitTot results).subset hx
  have hyr : y ∈ results := (List.perm_insertionSort fitTot results).subset hy
  obtain ⟨a, ha⟩ := Option.isSome_iff_exists.mp (hmem x hxr)
  obtain ⟨b, hb⟩ := Option.isSome_iff_exists.mp (hmem y hyr)
  unfold fitTot at hxy
  rw [ha, hb] at hxy ⊢
  simpa [jsFitGe] using hxy

/-- When every result of a sweep carries a numeric fitness, the optimizer
output is sorted by fitness descending in the NaN-aware order of the claim. -/
lemma optimize_sorted_of_finite (msqrt : ℚ → ℚ)
    (consensus : List Bar → Option StrategySignal) (cfg : BacktestConfig)
    (hist : Option (List Bar)) (now : ℕ) (ranges : List (String × List ℚ))
    (h : ∀ r ∈ optimizeStrategy msqrt consensus cfg hist now ranges,
      r.fitness.isSome = true) :
    List.Sorted (fun x y => jsFitGe x.fitness y.fitness)
      (optimizeStrategy msqrt consensus cfg hist now ranges) := by
  unfold optimizeStrategy at h ⊢
  exact insertionSort_sorted_of_finite _ h

/-- C5 (amended): generateParameterCombinations builds the full Cartesian
product of the candidate-value lists, exactly as on the two-by-two example,
with length the product of the list sizes and no duplicate combination when
the value lists are duplicate-free; optimizeStrategy keeps exactly the
combinations whose run succeeds; and provided every surviving result carries
a numeric fitness (a zero-trade run has NaN sharpe, hence NaN fitness), the
results are sorted by fitness descending and the first result dominates. -/
theorem optimizer_cartesian_product_sorted :
    generateParameterCombinations [("a", [1, 2]), ("b", [10, 20])] =
      [[("a", 1), ("b", 10)], [("a", 1), ("b", 20)],
       [("a", 2), ("b", 10)], [("a", 2), ("b", 20)]] ∧
    (∀ ranges : List (String × List ℚ),
        (generateParameterCombinations ranges).length
          = (ranges.map (fun p => p.2.length)).prod) ∧
    (∀ ranges : List (String × List ℚ), (∀ p ∈ ranges, p.2.Nodup) →
        (generateParameterCombinations ranges).Nodup) ∧
    (∀ (msqrt : ℚ → ℚ) (consensus : List Bar → Option StrategySignal)
        (cfg : BacktestConfig) (hist : Option (List Bar)) (now : ℕ)
        (ranges : List (String × List ℚ)),
        (optimizeStrategy msqrt consensus cfg hist now ranges).length
          = ((generateParameterCombinations ranges).filter
              (comboSucceeds msqrt consensus cfg hist now)).length) ∧
    (∀ (msqrt : ℚ → ℚ) (consensus : List Bar → Option StrategySignal)
        (cfg : BacktestConfig) (hist : Option (List Bar)) (now : ℕ)
        (ranges : List (String × List ℚ)),
        (∀ r ∈ optimizeStrategy msqrt consensus cfg hist now ranges,
          r.fitness.isSome = true) →
        List.Sorted (fun x y => jsFitGe x.fitness y.fitness)
          (optimizeStrategy msqrt consensus cfg hist now ranges)) ∧
    (∀ (msqrt : ℚ → ℚ) (consensus : List Bar → Option StrategySignal)
        (cfg : BacktestConfig) (hist : Option (List Bar)) (now : ℕ)
        (ranges : List (String × List ℚ)) (r : OptimizationResult)
        (rest : List OptimizationResult),
        optimizeStrategy msqrt consensus cfg hist now ranges = r :: rest →
        (∀ x ∈ r :: rest, x.fitness.isSome = true) →
        ∀ x ∈ r :: rest, jsFitGe r.fitness x.fitness) := by
  refine ⟨by decide, gen_length, gen_nodup, optimize_length,
    fun msqrt consensus cfg hist now ranges h =>
      optimize_sorted_of_finite msqrt consensus cfg hist now ranges h, ?_⟩
  intro msqrt consensus cfg hist now ranges r rest hopt hall x hx
  have hsorted : List.Sorted (fun x y => jsFitGe x.fitness y.fitness) (r :: rest) := by
    rw [← hopt]
    exact optimize_sorted_of_finite msqrt consensus cfg hist now ranges
      (by rw [hopt]; exact hall)
  rcases List.mem_cons.mp hx with hx | hx
  · obtain ⟨a, ha⟩ := Option.isSome_iff_exists.mp (hall r (List.mem_cons_self _ _))
    rw [hx, ha]
    simp [jsFitGe]
  · exact List.rel_of_sorted_cons hsorted x hx

/-- Witness for C5: the concrete two-by-two combination list is
duplicate-free. -/
theorem optimizer_cartesian_product_witness :
    (generateParameterCombinations [("a", [1, 2]), ("b", [10, 20])]).Nodup :=
  optimizer_cartesian_product_sorted.2.2.1 [("a", [1, 2]), ("b", [10, 20])] (by decide)

/-- C5 counterexample: a sweep of two combinations over a run that records no
trades gives both results the NaN fitness marker, so the first result of the
returned list does not have a fitness greater than or equal to that of the
second, as every JavaScript comparison with NaN is false. -/
theorem optimizer_nan_fitness_counterexample :
    (optimizeStrategy mq0 consNone cfg50 (some bars50) 0 [("a", [1, 2])]).map
        (fun r => r.fitness) = [none, none] ∧
    ¬ jsFitGe (none : Option ℚ) (none : Option ℚ) := by
  constructor
  · decide
  · exact fun h => h

/-- Agreement of two loop states on everything except the trade ids. -/
def StateAgree (st1 st2 : BTState) : Prop :=
  st1.capital = st2.capital ∧ st1.maxCapital = st2.maxCapital ∧
  st1.maxDrawdown = st2.maxDrawdown ∧ st1.currentDrawdown = st2.currentDrawdown ∧
  st1.trades.map stripId = st2.trades.map stripId ∧ st1.equityCurve = st2.equityCurve

/-- One loop step preserves agreement across different wall-clock readings:
the clock only enters the generated trade id. -/
lemma stepBar_now_agree (consensus : List Bar → Option StrategySignal)
    (cfg : BacktestConfig) (filtered : List Bar) (now1 now2 : ℕ)
    (st1 st2 : BTState) (i : ℕ) (h : StateAgree st1 st2) :
    StateAgree (stepBar consensus cfg filtered now1 st1 i)
      (stepBar consensus cfg filtered now2 st2 i) := by
  obtain ⟨h1, h2, h3, h4, h5, h6⟩ := h
  unfold stepBar
  dsimp only
  cases consensus (filtered.take (i + 1)) with
  | none =>
    refine ⟨?_, ?_, ?_, ?_, ?_, ?_⟩ <;> dsimp only
    · exact h1
    · exact h2
    · exact h3
    · exact h4
    · exact h5
    · rw [h1, h4, h6]
  | some sig =>
    dsimp only
    by_cases ha : sig.action = TradeAction.hold
    · have hne : ¬ (sig.action ≠ TradeAction.hold) := by simp [ha]
      rw [if_neg hne, if_neg hne]
      refine ⟨?_, ?_, ?_, ?_, ?_, ?_⟩ <;> dsimp only
      · exact h1
      · exact h2
      · exact h3
      · exact h4
      · exact h5
      · rw [h1, h4, h6]
    · rw [if_pos ha, if_pos ha, h1, h2, h3, h6]
      refine ⟨rfl, rfl, rfl, rfl, ?_, rfl⟩
      simp only [List.map_append, h5, List.map_cons, List.map_nil, stripId]

/-- The whole loop preserves agreement across wall-clock readings. -/
lemma foldl_now_agree (consensus : List Bar → Option StrategySignal)
    (cfg : BacktestConfig) (filtered : List Bar) (now1 now2 : ℕ) :
    ∀ (is : List ℕ) (st1 st2 : BTState), StateAgree st1 st2 →
      StateAgree (is.foldl (stepBar consensus cfg filtered now1) st1)
        (is.foldl (stepBar consensus cfg filtered now2) st2) := by
  intro is
  induction is with
  | nil => intro st1 st2 h; exact h
  | cons i is ih =>
    intro st1 st2 h
    exact ih _ _ (stepBar_now_agree consensus cfg filtered now1 now2 st1 st2 i h)

/-- C8 (amended): two runs of runBacktest on identical inputs at different
wall-clock times agree on the summary, the equity curve, the metrics, the
config and on every trade field except the id, which embeds the Date.now
reading; the full results are therefore identical except for trade ids. -/
theorem runBacktest_deterministic_except_ids (msqrt : ℚ → ℚ)
    (consensus : List Bar → Option StrategySignal) (cfg : BacktestConfig)
    (data : List Bar) (now1 now2 : ℕ) :
    summaryOf (runBacktest msqrt consensus cfg (some data) now1)
        = summaryOf (runBacktest msqrt consensus cfg (some data) now2) ∧
    (tradesOf (runBacktest msqrt consensus cfg (some data) now1)).map stripId
        = (tradesOf (runBacktest msqrt consensus cfg (some data) now2)).map stripId ∧
    equityCurveOf (runBacktest msqrt consensus cfg (some data) now1)
        = equityCurveOf (runBacktest msqrt consensus cfg (some data) now2) ∧
    metricsOf (runBacktest msqrt consensus cfg (some data) now1)
        = metricsOf (runBacktest msqrt consensus cfg (some data) now2) ∧
    configOf (runBacktest msqrt consensus cfg (some data) now1)
        = configOf (runBacktest msqrt consensus cfg (some data) now2) := by
  unfold runBacktest
  dsimp only
  by_cases h : (barFilter cfg data).length < 50
  · rw [if_pos h, if_pos h]
    exact ⟨rfl, rfl, rfl, rfl, rfl⟩
  · rw [if_neg h, if_neg h]
    have hagree := foldl_now_agree consensus cfg (barFilter cfg data) now1 now2
      (simIndices (barFilter cfg data).length) (initState cfg) (initState cfg)
      ⟨rfl, rfl, rfl, rfl, rfl, rfl⟩
    obtain ⟨h1, h2, h3, h4, h5, h6⟩ := hagree
    have hsum : calculateSummary msqrt
        ((simIndices (barFilter cfg data).length).foldl
          (stepBar consensus cfg (barFilter cfg data) now1) (initState cfg)).trades
        cfg.initialCapital
        ((simIndices (barFilter cfg data).length).foldl
          (stepBar consensus cfg (barFilter cfg data) now1) (initState cfg)).capital
        ((simIndices (barFilter cfg data).length).foldl
          (stepBar consensus cfg (barFilter cfg data) now1) (initState cfg)).maxDrawdown
        = calculateSummary msqrt
        ((simIndices (barFilter cfg data).length).foldl
          (stepBar consensus cfg (barFilter cfg data) now2) (initState cfg)).trades
        cfg.initialCapital
        ((simIndices (barFilter cfg data).length).foldl
          (stepBar consensus cfg (barFilter cfg data) now2) (initState cfg)).capital
        ((simIndices (barFilter cfg data).length).foldl
          (stepBar consensus cfg (barFilter cfg data) now2) (initState cfg)).maxDrawdown := by
      unfold calculateSummary
      rw [h5, h1, h3]
    dsimp only [summaryOf, tradesOf, equityCurveOf, metricsOf, configOf]
    refine ⟨?_, ?_, ?_, ?_, rfl⟩
    · unfold simulate
      rw [hsum]
    · unfold simulate
      exact h5
    · unfold simulate
      rw [h6]
    · unfold simulate
      unfold calculateAdvancedMetrics
      rw [h5, hsum]

/-- A step whose consensus is none only appends an equity point. -/
lemma stepBar_none (consensus : List Bar → Option StrategySignal)
    (cfg : BacktestConfig) (filtered : List Bar) (now : ℕ) (st : BTState) (i : ℕ)
    (hnone : consensus (filtered.take (i + 1)) = none) :
    stepBar consensus cfg filtered now st i
      = { st with equityCurve := st.equityCurve ++
          [{ timestamp := (filtered.getD i default).timestamp, equity := st.capital,
             drawdown := st.currentDrawdown }] } := by
  unfold stepBar
  dsimp only
  rw [hnone]

/-- A run of steps whose consensus is always none leaves the trades and the
numeric state unchanged. -/
lemma foldl_none_preserves (consensus : List Bar → Option StrategySignal)
    (cfg : BacktestConfig) (filtered : List Bar) (now : ℕ) :
    ∀ is : List ℕ, (∀ i ∈ is, consensus (filtered.take (i + 1)) = none) →
    ∀ st : BTState,
      (is.foldl (stepBar consensus cfg filtered now) st).trades = st.trades ∧
      (is.foldl (stepBar consensus cfg filtered now) st).capital = st.capital ∧
      (is.foldl (stepBar consensus cfg filtered now) st).maxCapital = st.maxCapital ∧
      (is.foldl (stepBar consensus cfg filtered now) st).maxDrawdown = st.maxDrawdown ∧
      (is.foldl (stepBar consensus cfg filtered now) st).currentDrawdown
        = st.currentDrawdown := by
  intro is
  induction is with
  | nil => intro _ st; exact ⟨rfl, rfl, rfl, rfl, rfl⟩
  | cons i is ih =>
    intro hall st
    rw [List.foldl_cons, stepBar_none consensus cfg filtered now st i
      (hall i (List.mem_cons_self _ _))]
    obtain ⟨a, b, c, d, e⟩ := ih (fun j hj => hall j (List.mem_cons_of_mem _ hj))
      { st with equityCurve := st.equityCurve ++
          [{ timestamp := (filtered.getD i default).timestamp, equity := st.capital,
             drawdown := st.currentDrawdown }] }
    exact ⟨a, b, c, d, e⟩

/-- Buy signal used by the concrete single-trade runs. -/
def sigBuyE : StrategySignal :=
  { action := TradeAction.buy, strength := 100, confidence := 50, entryPrice := 1,
    stopLoss := none, takeProfit := none, reason := "r" }

/-- Consensus that buys exactly once, on the window of 21 bars, and holds
otherwise. -/
def consBuyOnce : List Bar → Option StrategySignal := fun w =>
  if w.length = 21 then some sigBuyE else none

/-- The single trade of the concrete buy-once run carries an id built from
the wall-clock reading. -/
lemma consBuyOnce_trade_ids (now : ℕ) :
    (tradesOf (runBacktest mq0 consBuyOnce cfg50 (some bars50) now)).map (fun t => t.id)
      = [mkTradeId "X" 20 now] := by
  unfold runBacktest
  dsimp only
  rw [if_neg (by decide)]
  dsimp only [tradesOf]
  have hfil : barFilter cfg50 bars50 = bars50 := by decide
  rw [hfil]
  unfold simulate
  have hidx : simIndices bars50.length = 20 :: List.range' 21 28 := by decide
  rw [hidx, List.foldl_cons]
  have hall : ∀ i ∈ List.range' 21 28, consBuyOnce (bars50.take (i + 1)) = none := by decide
  obtain ⟨htr, _, _, _, _⟩ := foldl_none_preserves consBuyOnce cfg50 bars50 now
    (List.range' 21 28) hall (stepBar consBuyOnce cfg50 bars50 now (initState cfg50) 20)
  rw [htr]
  unfold stepBar
  dsimp only
  rw [show consBuyOnce (bars50.take (20 + 1)) = some sigBuyE from by decide]
  dsimp only
  rw [if_pos (show sigBuyE.action ≠ TradeAction.hold from by decide)]
  dsimp only [initState, cfg50, sigBuyE]
  rfl

/-- C8 counterexample: the very same inputs run at wall-clock readings 0 and
1 give different BacktestResults, because the recorded trade ids embed the
Date.now reading. -/
theorem runBacktest_not_identical_counterexample :
    runBacktest mq0 consBuyOnce cfg50 (some bars50) 0
      ≠ runBacktest mq0 consBuyOnce cfg50 (some bars50) 1 := by
  intro heq
  have hids : (tradesOf (runBacktest mq0 consBuyOnce cfg50 (some bars50) 0)).map
        (fun t => t.id)
      = (tradesOf (runBacktest mq0 consBuyOnce cfg50 (some bars50) 1)).map
        (fun t => t.id) := by
    rw [heq]
  rw [consBuyOnce_trade_ids 0, consBuyOnce_trade_ids 1] at hids
  exact absurd hids (by decide)

/-- With no negative returns the downside deviation is the square root of
zero, and the source then takes the guarded else-branch, yielding 0. -/
lemma sortino_zero_of_no_negatives (msqrt : ℚ → ℚ) (trades : List BacktestTrade)
    (summary : SummaryStats) (h : negativeReturns (trades.map stripId) = [])
    (h0 : msqrt 0 = 0) :
    (calculateAdvancedMetrics msqrt trades summary).sortinoRatio = 0 := by
  unfold calculateAdvancedMetrics metricsOfData
  dsimp only
  have hdv : downsideVariance (trades.map stripId) = 0 := by
    unfold downsideVariance
    rw [h]
    simp
  rw [hdv, h0]
  simp

/-- C6 (amended): sortinoRatio divides the total return percent, not the
mean per-trade return, by the downside deviation, the square root of the mean
squared negative return percentages; when there are no negative returns the
downside deviation is zero and sortinoRatio is 0, not Infinity. -/
theorem sortino_total_return_over_downside (msqrt : ℚ → ℚ)
    (trades : List BacktestTrade) (summary : SummaryStats) :
    (negativeReturns (trades.map stripId) = [] → msqrt 0 = 0 →
      (calculateAdvancedMetrics msqrt trades summary).sortinoRatio = 0) ∧
    (msqrt (downsideVariance (trades.map stripId)) ≠ 0 →
      (calculateAdvancedMetrics msqrt trades summary).sortinoRatio
        = summary.totalReturnPercent / msqrt (downsideVariance (trades.map stripId))) := by
  constructor
  · exact fun h h0 => sortino_zero_of_no_negatives msqrt trades summary h h0
  · intro hdd
    unfold calculateAdvancedMetrics metricsOfData
    dsimp only
    rw [if_pos hdd]

/-- Zero summary record used by the witness below. -/
def sum0 : SummaryStats :=
  { totalTrades := 0, winningTrades := 0, losingTrades := 0, winRate := 0,
    totalReturn := 0, totalReturnPercent := 0, maxDrawdown := 0,
    maxDrawdownPercent := 0, sharpeRatio := some 0, profitFactor := JsVal.num 0,
    averageWin := 0, averageLoss := 0, largestWin := 0, largestLoss := 0,
    averageHoldTime := 0 }

/-- Witness for C6 on an empty trade list. -/
theorem sortino_total_return_witness :
    (calculateAdvancedMetrics mq0 [] sum0).sortinoRatio = 0 :=
  (sortino_total_return_over_downside mq0 [] sum0).1 rfl (by simp [mq0])

/-- The single trade executed by the concrete buy-once run over the jumping
bars. -/
def c6trade : BacktestTrade :=
  { id := mkTradeId "X" 20 0, symbol := "X", ttype := TradeAction.buy,
    quantity := 500, entryPrice := 1, exitPrice := 10, entryTime := 20, exitTime := 21,
    profitLoss := 8999 / 2, profitLossPercent := 8999 / 10, fees := 1 / 2,
    strategy := "consensus", reason := "r" }

/-- C6 counterexample: a concrete completed run with one winning trade, hence
no negative returns, reports sortinoRatio 0 where the claim says Infinity. -/
theorem sortino_not_infinity_counterexample :
    (tradesOf (runBacktest mq0 consBuyOnce cfg50 (some barsJump) 0)).map
        (fun t => t.profitLossPercent) = [8999 / 10] ∧
    (metricsOf (runBacktest mq0 consBuyOnce cfg50 (some barsJump) 0)).map
        (fun m => m.sortinoRatio) = some 0 := by
  unfold runBacktest
  dsimp only
  rw [if_neg (by decide)]
  dsimp only [tradesOf, metricsOf]
  have hfil : barFilter cfg50 barsJump = barsJump := by decide
  rw [hfil]
  unfold simulate
  have hidx : simIndices barsJump.length = 20 :: List.range' 21 28 := by decide
  rw [hidx, List.foldl_cons]
  have hall : ∀ i ∈ List.range' 21 28, consBuyOnce (barsJump.take (i + 1)) = none := by decide
  obtain ⟨htr, _, _, _, _⟩ := foldl_none_preserves consBuyOnce cfg50 barsJump 0
    (List.range' 21 28) hall (stepBar consBuyOnce cfg50 barsJump 0 (initState cfg50) 20)
  rw [htr]
  have hstep : (stepBar consBuyOnce cfg50 barsJump 0 (initState cfg50) 20).trades
      = [c6trade] := by
    unfold stepBar
    dsimp only
    rw [show consBuyOnce (barsJump.take (20 + 1)) = some sigBuyE from by decide]
    dsimp only
    rw [if_pos (show sigBuyE.action ≠ TradeAction.hold from by decide)]
    rw [show barsJump.getD 20 default =
        { timestamp := 20, openPrice := 1, high := 1, low := 1, close := 1,
          volume := 0 } from by decide,
      show barsJump.getD (20 + 1) default =
        { timestamp := 21, openPrice := 1, high := 1, low := 1, close := 10,
          volume := 0 } from by decide]
    dsimp only [initState, cfg50, sigBuyE, calculatePositionSize]
    rw [List.nil_append]
    rw [show (if TradeAction.buy = TradeAction.buy then (1 : ℚ) else -1) = 1 from if_pos rfl]
    rw [show |(1 : ℚ) * (1000 * 0.01 / (1 * 0.02)) * 0.001| = 1 / 2 from by
      rw [abs_of_nonneg] <;> norm_num]
    unfold c6trade
    simp only [List.cons.injEq, and_true, BacktestTrade.mk.injEq]
    norm_num [mkTradeId]
  rw [hstep]
  constructor
  · rfl
  · have h0 : negativeReturns ([c6trade].map stripId) = [] := by
      unfold negativeReturns stripId c6trade
      simp only [List.map_cons, List.map_nil]
      rw [List.filter_cons]
      norm_num
    dsimp only [Option.map]
    rw [sortino_zero_of_no_negatives mq0 [c6trade] _ h0 (by simp [mq0])]
